import Mathlib

/-!
Verification of the `codi` conversational coding agent.

The Python sources are shallowly embedded: strings are Lean `String`s and
every Python string primitive the code uses (`split`, `startswith`, `strip`,
`lower`, slicing, `in`) is re-implemented on the underlying character list
with the exact Python semantics, so that all definitions compute by kernel
reduction.  Stateful code is embedded as explicit state passing.
-/

/-! ## Python string primitives -/

/-- Python whitespace test for `str.strip` / `str.split()` (ASCII cases,
which are the only ones that can occur in the repository's marker lines). -/
def isPyWs (c : Char) : Bool :=
  c = ' ' ∨ c = '\t' ∨ c = '\n' ∨ c = '\r'

/-- Length of a string in characters, Python `len`. -/
def pyLen (s : String) : Nat := s.data.length

/-- Python `s.startswith(p)`. -/
def pyStartsWith (s p : String) : Bool := p.data.isPrefixOf s.data

/-- Python `s[n:]` for a nonnegative character index `n`. -/
def pyDrop (s : String) (n : Nat) : String := String.mk (s.data.drop n)

/-- Python `s.strip()`: drop whitespace from both ends. -/
def pyStrip (s : String) : String :=
  String.mk (((s.data.dropWhile isPyWs).reverse.dropWhile isPyWs).reverse)

/-- Python `s.split()[0]` for a string whose stripped form is non-empty:
the first maximal run of non-whitespace characters. -/
def firstToken (s : String) : String :=
  String.mk ((s.data.dropWhile isPyWs).takeWhile (fun c => !isPyWs c))

/-- Python `s.lower()` (ASCII case folding suffices for the keyword tables). -/
def pyLower (s : String) : String := String.mk (s.data.map Char.toLower)

/-- Helper for the substring test: does `n` occur as a contiguous block of
`h`?  (Checked at every suffix of `h`; the empty string occurs everywhere,
matching Python.) -/
def listInfixOf (n : List Char) : List Char → Bool
  | [] => n.isEmpty
  | c :: cs => n.isPrefixOf (c :: cs) || listInfixOf n cs

/-- Python `needle in haystack` substring test. -/
def containsSubstr (haystack needle : String) : Bool :=
  listInfixOf needle.data haystack.data

/-- Split a character list at every newline, Python `split("\n")` semantics:
`splitNl []` is `[[]]`, and the separator is consumed. -/
def splitNl : List Char → List (List Char)
  | [] => [[]]
  | c :: cs =>
    if c = '\n' then [] :: splitNl cs
    else
      match splitNl cs with
      | [] => [[c]]
      | l :: ls => (c :: l) :: ls

/-- Join character lists with a newline, Python `"\n".join` semantics. -/
def joinNl : List (List Char) → List Char
  | [] => []
  | [p] => p
  | p :: ps => p ++ '\n' :: joinNl ps

/-- Python `s.split("\n")`. -/
def pySplitLines (s : String) : List String := (splitNl s.data).map String.mk

/-- Python `"\n".join(lines)`. -/
def pyJoinNl (lines : List String) : String :=
  String.mk (joinNl (lines.map String.data))

/-- Python `l[i:]` slicing for an arbitrary integer index `i`
(negative indices count from the end; out-of-range clamps). -/
def pySliceFrom {α : Type} (l : List α) (i : Int) : List α :=
  if i < 0 then l.drop ((l.length + i).toNat) else l.drop i.toNat

/-! ## The Code-Change Extractor (`CodiAgent._parse_code_changes`,
`src/src/core/agent.py` lines 634-679) -/

/-- Python `dict` assignment `d[k] = v` on an insertion-ordered association
list: replace in place if the key is present, else append. -/
def dictInsert : List (String × String) → String → String → List (String × String)
  | [], k, v => [(k, v)]
  | (k', v') :: rest, k, v =>
    if k' = k then (k, v) :: rest else (k', v') :: dictInsert rest k v

/-- Python `d.get(k)` on an insertion-ordered association list. -/
def dictLookup : List (String × String) → String → Option String
  | [], _ => none
  | (k', v') :: rest, k => if k' = k then some v' else dictLookup rest k

/-- The extractor's loop state: `changes` is the accumulated output `dict`,
`current_file` mirrors the Python variable (`none` for Python `None`; note
the `File:` branch can store an empty string, which Python treats as falsy),
`current_content` is the buffered lines of the open file. -/
structure ParseState where
  changes : List (String × String)
  current_file : Option String
  current_content : List String
deriving Repr, DecidableEq

/-- The flush performed at the top of the fence-open and `File:` branches
(agent.py lines 644-647, 656-659): commit the buffer under `current_file`
and clear the buffer, but only when Python's
`if current_file and current_content:` holds, i.e. `current_file` is a
non-empty string and the buffer is non-empty; `current_file` is kept. -/
def flushKeep (st : ParseState) : ParseState :=
  match st.current_file with
  | some f =>
    if f ≠ "" ∧ st.current_content ≠ [] then
      { st with changes := dictInsert st.changes f (pyJoinNl st.current_content),
                current_content := [] }
    else st
  | none => st

/-- One iteration of the extractor's `for line in lines` loop
(agent.py lines 641-673), with the four branches in source order.
In the `File:`/`filename:` branch, Python's `line.split(": ", 1)[1]` equals
dropping the matched label (6 or 10 characters), because the label's earlier
characters contain no colon, so its own `": "` is the first occurrence. -/
def processLine (st : ParseState) (line : String) : ParseState :=
  if pyStartsWith line "```" ∧ 3 < pyLen line then
    let st1 := flushKeep st
    let lang_or_file := pyStrip (pyDrop line 3)
    if lang_or_file.data.contains '/' ∨ lang_or_file.data.contains '.' then
      { st1 with current_file := some (firstToken lang_or_file) }
    else st1
  else if pyStartsWith line "File: " ∨ pyStartsWith line "filename: " then
    let st1 := flushKeep st
    let name :=
      if pyStartsWith line "File: " then pyStrip (pyDrop line 6)
      else pyStrip (pyDrop line 10)
    { st1 with current_file := some name }
  else if pyStartsWith line "```" ∧ pyLen line = 3 then
    match st.current_file with
    | some f =>
      if f ≠ "" ∧ st.current_content ≠ [] then
        { changes := dictInsert st.changes f (pyJoinNl st.current_content),
          current_file := none,
          current_content := [] }
      else st
    | none => st
  else
    match st.current_file with
    | some f =>
      if f ≠ "" then { st with current_content := st.current_content ++ [line] }
      else st
    | none => st

/-- The final flush after the loop (agent.py lines 676-677): commit a
still-open file, again under Python's truthiness guard. -/
def finalFlush (st : ParseState) : List (String × String) :=
  match st.current_file with
  | some f =>
    if f ≠ "" ∧ st.current_content ≠ [] then
      dictInsert st.changes f (pyJoinNl st.current_content)
    else st.changes
  | none => st.changes

/-- The extractor run over an explicit line list: fold the loop body from the
initial state, then flush. -/
def parseLines (lines : List String) : List (String × String) :=
  finalFlush (lines.foldl processLine ⟨[], none, []⟩)

/-- `CodiAgent._parse_code_changes` (agent.py lines 634-679): split the
generated text on newlines and run the state machine. -/
def parse_code_changes (generated_code : String) : List (String × String) :=
  parseLines (pySplitLines generated_code)

/-! ## The Task Classifier (`CodiAgent._identify_task_type`,
`src/src/core/agent.py` lines 269-280) -/

/-- The analyze / generate / review keyword tables, in source order. -/
def analyzeKeywords : List String := ["analyze", "review", "check", "look at"]

/-- Keywords of the `generate` branch. -/
def generateKeywords : List String := ["generate", "create", "write", "implement"]

/-- Keywords of the `review` branch (checked last in the source). -/
def reviewKeywords : List String := ["review pr", "review pull request", "check pr"]

/-- `CodiAgent._identify_task_type`: lower-case the message and test the
three keyword tables in source order, first hit winning. -/
def identify_task_type (message : String) : Option String :=
  let message_lower := pyLower message
  if analyzeKeywords.any (fun k => containsSubstr message_lower k) then some "analyze"
  else if generateKeywords.any (fun k => containsSubstr message_lower k) then some "generate"
  else if reviewKeywords.any (fun k => containsSubstr message_lower k) then some "review"
  else none

/-! ## The Conversation Store (`ChatMemory`, `src/src/core/chat.py`)

`datetime.now()` timestamps and the on-disk persistence directory are
external effects irrelevant to the claims; a `Message` is embedded by its
`role`, `content` and `metadata` fields, and the store's state is its
`current_conversation` slot. -/

/-- A chat message (`chat.py` lines 7-12, minus the wall-clock timestamp). -/
structure Message where
  role : String
  content : String
  metadata : List (String × String)
deriving Repr, DecidableEq

/-- A conversation (`chat.py` lines 14-20). -/
structure Conversation where
  messages : List Message
  context : List (String × String)
  workspace_path : Option String
  current_file : Option String
  active_task : Option String
deriving Repr, DecidableEq

/-- `ChatMemory.start_conversation` (`chat.py` lines 33-40): a fresh empty
conversation becomes the current one. -/
def start_conversation (workspace_path : Option String) : Conversation :=
  ⟨[], [], workspace_path, none, none⟩

/-- `ChatMemory.add_message` (`chat.py` lines 42-54): start a conversation
implicitly if none is active, then append the new message; returns the
updated store slot and the created message. -/
def add_message (mem : Option Conversation) (role content : String)
    (metadata : List (String × String)) : Option Conversation × Message :=
  let conv := match mem with
    | none => start_conversation none
    | some c => c
  let message : Message := ⟨role, content, metadata⟩
  (some { conv with messages := conv.messages ++ [message] }, message)

/-- `ChatMemory.get_conversation_context` (`chat.py` lines 56-60). -/
def get_conversation_context (mem : Option Conversation) : List (String × String) :=
  match mem with
  | none => []
  | some c => c.context

/-- `ChatMemory.get_recent_messages` (`chat.py` lines 68-72): return
`messages[-limit:]`, i.e. the Python slice of the history at the negated
limit; empty when no conversation is active. -/
def get_recent_messages (mem : Option Conversation) (limit : Nat := 10) : List Message :=
  match mem with
  | none => []
  | some c => pySliceFrom c.messages (-(limit : Int))

/-! ## The Progress Reporter (`WorkflowLogger`, `src/src/core/workflow_logger.py`)

`click.echo` console output is recorded as an append-only `log` trace. -/

/-- One emitted notice. -/
inductive LogEvent where
  | step (n : Nat) (action : String) (tool : Option String)
  | working (message : String) (onTask : String)
  | result (success : Bool) (message : String)
deriving Repr, DecidableEq

/-- `WorkflowLogger` state (`workflow_logger.py` lines 11-13) plus the trace
of emitted notices. -/
structure LoggerState where
  step_count : Nat
  active_tasks : List String
  log : List LogEvent
deriving Repr, DecidableEq

/-- `WorkflowLogger.log_step` (`workflow_logger.py` lines 15-36). -/
def log_step (lg : LoggerState) (action : String) (tool : Option String := none) : LoggerState :=
  { step_count := lg.step_count + 1,
    active_tasks := lg.active_tasks ++ [action],
    log := lg.log ++ [LogEvent.step (lg.step_count + 1) action tool] }

/-- `WorkflowLogger.log_working` (`workflow_logger.py` lines 38-42): emits a
heartbeat only when a task is active, naming the top of the stack. -/
def log_working (lg : LoggerState) (message : String) : LoggerState :=
  match lg.active_tasks.getLast? with
  | some current_task => { lg with log := lg.log ++ [LogEvent.working message current_task] }
  | none => lg

/-- `WorkflowLogger.log_result` (`workflow_logger.py` lines 44-53): pop the
top of the active-task stack (if any) and emit a success/failure notice. -/
def log_result (lg : LoggerState) (success : Bool) (message : String) : LoggerState :=
  { lg with active_tasks := lg.active_tasks.dropLast,
            log := lg.log ++ [LogEvent.result success message] }

/-- `WorkflowLogger.reset` (`workflow_logger.py` lines 55-58); already
emitted console output is not retracted, so the trace is kept. -/
def logReset (lg : LoggerState) : LoggerState :=
  { lg with step_count := 0, active_tasks := [] }

/-! ## Task objects and the task pipeline (`src/src/core/agent.py`) -/

/-- `CodeContext` (agent.py lines 18-23). -/
structure CodeContext where
  files : List (String × String)
  current_file : Option String
  language : Option String
  project_root : Option String
deriving Repr, DecidableEq

/-- `CodingTask` (agent.py lines 25-30). -/
structure CodingTask where
  task_type : String
  description : String
  context : CodeContext
  requirements : Option (List String)
deriving Repr, DecidableEq

/-- `CodeResponse` (agent.py lines 32-37). -/
structure CodeResponse where
  solution : String
  explanation : Option String
  suggestions : Option (List String)
  code_changes : Option (List (String × String))
deriving Repr, DecidableEq

/-- A raised Python exception, by class and `str(e)` text. -/
inductive PyError where
  | valueError (message : String)
  | notImplementedError (message : String)
  | other (message : String)
deriving Repr, DecidableEq

/-- Python `str(e)` of an exception: its message text. -/
def errStr : PyError → String
  | .valueError m => m
  | .notImplementedError m => m
  | .other m => m

/-- `CodiAgent.process_task` (agent.py lines 306-337).  The three task
handlers `_analyze_code` / `_generate_code` / `_review_code` call the
completion backend and are abstracted as the parameter `run`, keyed by the
dispatched task type; an unknown type raises `ValueError` inside the `try`,
and the blanket `except Exception` turns every raised exception into an
ordinary `CodeResponse`, so `process_task` always returns normally. -/
def process_task (run : String → CodingTask → Except PyError CodeResponse)
    (project_name : String) (task : CodingTask) : CodeResponse :=
  if ["hi", "hello", "test"].contains (pyLower task.description) then
    { solution := "👋 Hello! I\x27m Codi, your AI senior software developer. I\x27m currently working in the " ++ project_name ++ " project and have full access to the codebase. Let\x27s write some excellent code together.",
      explanation := some "Greeting message",
      suggestions := none,
      code_changes := none }
  else
    match
      (if task.task_type = "analyze" then run "analyze" task
       else if task.task_type = "generate" then run "generate" task
       else if task.task_type = "review" then run "review" task
       else Except.error (PyError.valueError ("Unknown task type: " ++ task.task_type))) with
    | Except.ok r => r
    | Except.error e =>
      { solution := "Error processing task: " ++ errStr e,
        explanation := some "An error occurred",
        suggestions := none,
        code_changes := none }

/-- The agent call as the HTTP layer sees it: since `process_task` catches
every exception internally (agent.py lines 321-337) and the greeting path
returns directly, the call always returns normally. -/
def process_task_exc (run : String → CodingTask → Except PyError CodeResponse)
    (project_name : String) (task : CodingTask) : Except PyError CodeResponse :=
  Except.ok (process_task run project_name task)

/-- Outcome at the service boundary: a JSON `CodeResponse`, or an
`HTTPException` with a status code and detail text. -/
inductive ApiResult where
  | ok (response : CodeResponse)
  | httpError (status : Nat) (detail : String)
deriving Repr, DecidableEq

/-- The `POST /task` operation (`src/api/main.py` lines 13-28): forward to
`agent.process_task`, mapping a raised `NotImplementedError` to HTTP 501 and
any other exception to HTTP 500. -/
def api_process_task (run : String → CodingTask → Except PyError CodeResponse)
    (project_name : String) (task : CodingTask) : ApiResult :=
  match process_task_exc run project_name task with
  | Except.ok r => ApiResult.ok r
  | Except.error (PyError.notImplementedError _) =>
    ApiResult.httpError 501 ("Task type \x27" ++ task.task_type ++ "\x27 not implemented yet")
  | Except.error e => ApiResult.httpError 500 (errStr e)

/-! ## The chat turn (`CodiAgent.chat`, `src/src/core/agent.py` lines 105-242)

The completion backend, the filesystem scan of `_handle_file_operation`
(including its internal notices) and the task-pipeline handlers are external
effects, abstracted as the `complete` / `fileOp` / `run` parameters; an
`Except.error` value is a raised exception observed at the corresponding
`await`.  The role-tagged prompt list built from personality, context and
history is consumed only by the abstracted backend, and the timing-driven
heartbeat emissions inside the two polling loops are modelled separately
(see `hbLoop` below), so neither appears in the state threading. -/

/-- The filesystem keywords of the file-operation branch (agent.py line 208). -/
def fileKeywords : List String := ["file", "directory", "folder", "repo", "repository", "count"]

/-- `CodiAgent.chat`: one full turn over the store and logger state,
returning the updated store, the updated logger and the reply text. -/
def chat (complete : Except String String) (fileOp : Except String String)
    (run : String → CodingTask → Except PyError CodeResponse)
    (workspaceCtx : CodeContext) (workspace_path : Option String) (project_name : String)
    (message source : String) (mem : Option Conversation) (lg : LoggerState) :
    Option Conversation × LoggerState × String :=
  let lg := logReset lg
  let lg := log_step lg "Starting new conversation"
  let (mem, lg) := match mem with
    | none => (some (start_conversation workspace_path), log_step lg "Initializing conversation context")
    | some c => (some c, lg)
  let mem := (add_message mem "user" message [("source", source)]).1
  let lg := log_step lg "Preparing conversation context"
  let lg := log_step lg "Building conversation history"
  let lg := log_step lg "Thinking about response" (some "GPT-4")
  match complete with
  | Except.error e =>
    let error_message := "I encountered a technical issue: " ++ e ++ ". I\x27ll adjust my approach to resolve this."
    let mem := (add_message mem "assistant" error_message [("source", source)]).1
    let lg := log_result lg false e
    (mem, lg, error_message)
  | Except.ok assistant_message =>
    let mem := (add_message mem "assistant" assistant_message [("source", source)]).1
    match identify_task_type message with
    | some task_type =>
      let lg := log_step lg ("Identified task type: " ++ task_type)
      let task : CodingTask := ⟨task_type, message, workspaceCtx, none⟩
      let task_response := process_task run project_name task
      let lg := log_step lg "Task completed"
      (mem, lg, assistant_message ++ "\n\n" ++ task_response.solution)
    | none =>
      if fileKeywords.any (fun k => containsSubstr (pyLower message) k) then
        let lg := log_step lg "File operation requested" (some "File System")
        match fileOp with
        | Except.ok operation_result =>
          let lg := log_result lg true "File operation completed"
          (mem, lg, assistant_message ++ "\n\n" ++ operation_result)
        | Except.error e =>
          let lg := log_result lg false ("File operation failed: " ++ e)
          (mem, lg, assistant_message ++ "\n\nI encountered an error while checking the files: " ++ e)
      else
        let lg := log_step lg "Response ready"
        (mem, lg, assistant_message)

/-! ## The heartbeat polling loop (agent.py lines 174-181,
workflow_logger.py lines 80-86)

Discrete-time embedding of the cooperative polling loop, with time measured
in ticks of the loop's `asyncio.sleep(0.1)`: the awaited call completes at
tick `T`; each iteration first observes `task.done()` (true from tick `T`
on) and exits, otherwise emits a heartbeat when at least `interval` ticks
passed since `last_update`, then sleeps one tick.  The fuel argument only
bounds the iteration count; `T + 1` iterations always suffice. -/

/-- One run of the polling loop: returns the list of tick times at which a
heartbeat was emitted, and the tick at which the loop observed completion
and stopped. -/
def hbLoop (T interval : Nat) : Nat → Nat → Nat → List Nat × Nat
  | 0, t, _ => ([], t)
  | fuel + 1, t, last_update =>
    if T ≤ t then ([], t)
    else if interval ≤ t - last_update then
      let r := hbLoop T interval fuel (t + 1) t
      (t :: r.1, r.2)
    else hbLoop T interval fuel (t + 1) last_update

/-- Heartbeat times for a call pending until tick `T`, with the source's
2.0-second minimum interval (20 ticks of 0.1s), starting with
`start_time = last_update = 0`. -/
def heartbeats (T : Nat) : List Nat := (hbLoop T 20 (T + 1) 0 0).1

/-- The tick at which the loop observes completion and stops. -/
def heartbeatStopTick (T : Nat) : Nat := (hbLoop T 20 (T + 1) 0 0).2

/-! ## Predicates and rendering used to state the extractor claims -/

/-- A path-like fence tag in the sense of the extractor: non-empty, free of
whitespace (so stripping and token-splitting leave it unchanged) and
containing a path separator or a dot (so the fence-tag rule adopts it). -/
def pathLikeKey (k : String) : Prop :=
  k ≠ "" ∧ (∀ c ∈ k.data, isPyWs c = false) ∧
    (k.data.contains '/' = true ∨ k.data.contains '.' = true)

/-- A line that triggers none of the extractor's three marker rules. -/
def plainLine (line : String) : Prop :=
  pyStartsWith line "```" = false ∧ pyStartsWith line "File: " = false ∧
    pyStartsWith line "filename: " = false

/-- File content whose lines look like content to the extractor: no line of
it begins a fence or a `File:`/`filename:` label. -/
def goodContent (v : String) : Prop := ∀ line ∈ pySplitLines v, plainLine line

instance (k : String) : Decidable (pathLikeKey k) :=
  inferInstanceAs (Decidable (k ≠ "" ∧ (∀ c ∈ k.data, isPyWs c = false) ∧
    (k.data.contains '/' = true ∨ k.data.contains '.' = true)))

instance (line : String) : Decidable (plainLine line) :=
  inferInstanceAs (Decidable (pyStartsWith line "```" = false ∧
    pyStartsWith line "File: " = false ∧ pyStartsWith line "filename: " = false))

instance (v : String) : Decidable (goodContent v) :=
  inferInstanceAs (Decidable (∀ line ∈ pySplitLines v, plainLine line))

/-- One mapping entry rendered back to text, as the spec's round-trip claim
describes: a fence line carrying the path as its tag, the content's lines,
and a bare closing fence. -/
def renderEntry (k v : String) : List String :=
  ("```" ++ k) :: (pySplitLines v ++ ["```"])

/-- All entries rendered in order. -/
def renderAll (m : List (String × String)) : List String :=
  (m.map (fun kv => renderEntry kv.1 kv.2)).flatten

/-- The reconstructed text fed back into the extractor. -/
def renderText (m : List (String × String)) : String := pyJoinNl (renderAll m)

/-- The file path (if any) that a line makes the extractor adopt as the new
`current_file`: the first token of a path-like fence tag (rule 1) or the
stripped text after a `File:`/`filename:` label (rule 2), mirroring the two
assignments to `current_file` in `processLine`. -/
def opensFile (line : String) : Option String :=
  if pyStartsWith line "```" ∧ 3 < pyLen line then
    let lang_or_file := pyStrip (pyDrop line 3)
    if lang_or_file.data.contains '/' ∨ lang_or_file.data.contains '.' then
      some (firstToken lang_or_file)
    else none
  else if pyStartsWith line "File: " ∨ pyStartsWith line "filename: " then
    some (if pyStartsWith line "File: " then pyStrip (pyDrop line 6)
          else pyStrip (pyDrop line 10))
  else none

/-- The extractor's loop invariant: a non-empty buffer implies a truthy
`current_file` (appends only happen under `if current_file:`). -/
def bufInv (st : ParseState) : Prop :=
  st.current_content ≠ [] → ∃ f, st.current_file = some f ∧ f ≠ ""

/-- A one-message conversation used as the concrete input of the
`recent_messages` edge-case counterexample. -/
def oneMsgConv : Conversation :=
  ⟨[⟨"user", "hi", []⟩], [], none, none, none⟩

/-! ## Helper lemmas about the Python primitives -/

@[simp] theorem data_mk (l : List Char) : (String.mk l).data = l := rfl

@[simp] theorem mk_data (s : String) : String.mk s.data = s := rfl

theorem data_ne_nil {k : String} (h : k ≠ "") : k.data ≠ [] := by
  intro hd
  exact h (by cases k; simp_all)

theorem isPrefixOf_append (p r : List Char) : p.isPrefixOf (p ++ r) = true := by
  induction p with
  | nil => simp [List.isPrefixOf]
  | cons c cs ih => simp [List.isPrefixOf, ih]

theorem pyStartsWith_append (p k : String) : pyStartsWith (p ++ k) p = true := by
  unfold pyStartsWith
  rw [String.data_append]
  exact isPrefixOf_append _ _

theorem pyLen_append (a b : String) : pyLen (a ++ b) = pyLen a + pyLen b := by
  unfold pyLen
  rw [String.data_append, List.length_append]

theorem pyDrop_fence (k : String) : pyDrop ("```" ++ k) 3 = k := by
  unfold pyDrop
  rw [String.data_append]
  have h3 : ("```" : String).data.length = 3 := rfl
  rw [show (3 : Nat) = ("```" : String).data.length from h3.symm, List.drop_left]

theorem pyLen_fence_pos {k : String} (h : k ≠ "") : 3 < pyLen ("```" ++ k) := by
  rw [pyLen_append]
  have : 0 < pyLen k := List.length_pos.mpr (data_ne_nil h)
  have h3 : pyLen ("```" : String) = 3 := rfl
  omega

theorem dropWhile_forall_false (p : Char → Bool) (l : List Char)
    (h : ∀ c ∈ l, p c = false) : l.dropWhile p = l := by
  cases l with
  | nil => rfl
  | cons x xs => simp [List.dropWhile, h x (List.mem_cons_self x xs)]

theorem takeWhile_forall_true (p : Char → Bool) (l : List Char)
    (h : ∀ c ∈ l, p c = true) : l.takeWhile p = l := by
  induction l with
  | nil => rfl
  | cons x xs ih =>
    rw [List.takeWhile_cons_of_pos (h x (List.mem_cons_self x xs))]
    rw [ih fun c hc => h c (List.mem_cons_of_mem x hc)]

theorem pyStrip_noWs (s : String) (h : ∀ c ∈ s.data, isPyWs c = false) : pyStrip s = s := by
  unfold pyStrip
  rw [dropWhile_forall_false _ _ h]
  rw [dropWhile_forall_false _ _ (fun c hc => h c (List.mem_reverse.mp hc))]
  rw [List.reverse_reverse]

theorem firstToken_noWs (s : String) (h : ∀ c ∈ s.data, isPyWs c = false) :
    firstToken s = s := by
  unfold firstToken
  rw [dropWhile_forall_false _ _ h]
  rw [takeWhile_forall_true _ _ (fun c hc => by rw [h c hc]; rfl)]

theorem splitNl_ne_nil (l : List Char) : splitNl l ≠ [] := by
  cases l with
  | nil => simp [splitNl]
  | cons c cs =>
    unfold splitNl
    by_cases h : c = '\n'
    · simp [h]
    · rw [if_neg h]
      cases hs : splitNl cs <;> simp

theorem mem_splitNl_no_nl (l : List Char) : ∀ p ∈ splitNl l, ∀ c ∈ p, c ≠ '\n' := by
  induction l with
  | nil =>
    intro p hp
    simp [splitNl] at hp
    subst hp
    simp
  | cons c cs ih =>
    intro p hp
    unfold splitNl at hp
    by_cases h : c = '\n'
    · rw [if_pos h] at hp
      rcases List.mem_cons.mp hp with h1 | h1
      · subst h1; simp
      · exact ih p h1
    · rw [if_neg h] at hp
      cases hs : splitNl cs with
      | nil => exact absurd hs (splitNl_ne_nil cs)
      | cons x xs =>
        rw [hs] at hp
        rcases List.mem_cons.mp hp with h1 | h1
        · subst h1
          intro d hd
          rcases List.mem_cons.mp hd with h2 | h2
          · subst h2; exact h
          · exact ih x (hs ▸ List.mem_cons_self x xs) d h2
        · exact ih p (hs ▸ List.mem_cons_of_mem x h1)

theorem joinNl_cons (x : List Char) (ys : List (List Char)) (h : ys ≠ []) :
    joinNl (x :: ys) = x ++ '\n' :: joinNl ys := by
  cases ys with
  | nil => exact absurd rfl h
  | cons y ys => rfl

theorem joinNl_splitNl (l : List Char) : joinNl (splitNl l) = l := by
  induction l with
  | nil => rfl
  | cons c cs ih =>
    unfold splitNl
    by_cases h : c = '\n'
    · rw [if_pos h, joinNl_cons _ _ (splitNl_ne_nil cs), h]
      simpa using ih
    · rw [if_neg h]
      cases hs : splitNl cs with
      | nil => exact absurd hs (splitNl_ne_nil cs)
      | cons x xs =>
        have hx : joinNl ((c :: x) :: xs) = c :: joinNl (x :: xs) := by
          cases xs with
          | nil => rfl
          | cons y ys => rfl
        rw [hx, ← hs, ih]

theorem splitNl_no_nl (p : List Char) (hp : ∀ c ∈ p, c ≠ '\n') : splitNl p = [p] := by
  induction p with
  | nil => rfl
  | cons c cs ih =>
    unfold splitNl
    rw [if_neg (hp c (List.mem_cons_self c cs))]
    rw [ih fun d hd => hp d (List.mem_cons_of_mem c hd)]

theorem splitNl_cons_ne (c : Char) (cs x : List Char) (xs : List (List Char))
    (h : c ≠ '\n') (hs : splitNl cs = x :: xs) : splitNl (c :: cs) = (c :: x) :: xs := by
  conv_lhs => unfold splitNl
  rw [if_neg h, hs]

theorem splitNl_append_sep (p l : List Char) (hp : ∀ c ∈ p, c ≠ '\n') :
    splitNl (p ++ '\n' :: l) = p :: splitNl l := by
  induction p with
  | nil => simp [splitNl]
  | cons c cs ih =>
    rw [List.cons_append]
    exact splitNl_cons_ne c _ cs (splitNl l) (hp c (List.mem_cons_self c cs))
      (ih fun d hd => hp d (List.mem_cons_of_mem c hd))

theorem splitNl_joinNl (ps : List (List Char)) (h : ps ≠ [])
    (hnl : ∀ p ∈ ps, ∀ c ∈ p, c ≠ '\n') : splitNl (joinNl ps) = ps := by
  induction ps with
  | nil => exact absurd rfl h
  | cons p ps ih =>
    cases ps with
    | nil => exact splitNl_no_nl p (hnl p (List.mem_cons_self p []))
    | cons q qs =>
      rw [joinNl_cons _ _ (by simp)]
      rw [splitNl_append_sep _ _ (hnl p (List.mem_cons_self p _))]
      rw [ih (by simp) (fun r hr => hnl r (List.mem_cons_of_mem p hr))]

theorem pyJoinNl_pySplitLines (v : String) : pyJoinNl (pySplitLines v) = v := by
  unfold pyJoinNl pySplitLines
  rw [List.map_map]
  have : (String.data ∘ String.mk) = id := funext fun l => rfl
  rw [this, List.map_id, joinNl_splitNl]

theorem pySplitLines_ne_nil (s : String) : pySplitLines s ≠ [] := by
  unfold pySplitLines
  simp [splitNl_ne_nil]

theorem pySplitLines_pyJoinNl (ls : List String) (h : ls ≠ [])
    (hnl : ∀ l ∈ ls, ∀ c ∈ l.data, c ≠ '\n') : pySplitLines (pyJoinNl ls) = ls := by
  unfold pySplitLines pyJoinNl
  rw [data_mk]
  rw [splitNl_joinNl _ (by simpa using h)
    (fun p hp c hc => by
      obtain ⟨l, hl, rfl⟩ := List.mem_map.mp hp
      exact hnl l hl c hc)]
  rw [List.map_map]
  have : (String.mk ∘ String.data) = id := funext fun s => mk_data s
  rw [this, List.map_id]

/-! ## Helper lemmas about the output dictionary -/

theorem dictLookup_insert_self (c : List (String × String)) (k v : String) :
    dictLookup (dictInsert c k v) k = some v := by
  induction c with
  | nil => simp [dictInsert, dictLookup]
  | cons kv rest ih =>
    obtain ⟨k', v'⟩ := kv
    by_cases h : k' = k
    · simp [dictInsert, dictLookup, h]
    · simp [dictInsert, dictLookup, h, ih]

theorem dictLookup_insert_ne (c : List (String × String)) (k' k v : String) (h : k' ≠ k) :
    dictLookup (dictInsert c k' v) k = dictLookup c k := by
  induction c with
  | nil => simp [dictInsert, dictLookup, h]
  | cons kv rest ih =>
    obtain ⟨k'', v''⟩ := kv
    by_cases h2 : k'' = k'
    · simp [dictInsert, dictLookup, h2, h]
    · simp [dictInsert, dictLookup, h2, ih]

theorem dictInsert_eq_append (c : List (String × String)) (k v : String)
    (h : ∀ kv ∈ c, kv.1 ≠ k) : dictInsert c k v = c ++ [(k, v)] := by
  induction c with
  | nil => rfl
  | cons kv rest ih =>
    obtain ⟨k', v'⟩ := kv
    have hk : k' ≠ k := h (k', v') (List.mem_cons_self _ _)
    simp [dictInsert, hk, ih fun x hx => h x (List.mem_cons_of_mem _ hx)]

theorem mem_dictInsert (c : List (String × String)) (k v : String) (x : String × String)
    (h : x ∈ dictInsert c k v) : x = (k, v) ∨ x ∈ c := by
  induction c with
  | nil => simpa [dictInsert] using h
  | cons kv rest ih =>
    obtain ⟨k', v'⟩ := kv
    by_cases h2 : k' = k
    · simp only [dictInsert, if_pos h2] at h
      rcases List.mem_cons.mp h with h3 | h3
      · exact Or.inl h3
      · exact Or.inr (List.mem_cons_of_mem _ h3)
    · simp only [dictInsert, if_neg h2] at h
      rcases List.mem_cons.mp h with h3 | h3
      · exact Or.inr (h3 ▸ List.mem_cons_self _ _)
      · rcases ih h3 with h4 | h4
        · exact Or.inl h4
        · exact Or.inr (List.mem_cons_of_mem _ h4)

/-! ## Step lemmas for the extractor state machine -/

theorem flushKeep_current_file (st : ParseState) :
    (flushKeep st).current_file = st.current_file := by
  obtain ⟨c, cf, buf⟩ := st
  unfold flushKeep
  cases cf with
  | none => rfl
  | some f =>
    dsimp only
    split <;> rfl

theorem bufInv_flushKeep (st : ParseState) (h : bufInv st) : bufInv (flushKeep st) := by
  obtain ⟨c, cf, buf⟩ := st
  unfold flushKeep
  cases cf with
  | none => exact h
  | some f =>
    dsimp only
    split
    · intro hne
      exact absurd rfl hne
    · exact h

theorem flushKeep_cc_of_bufInv (st : ParseState) (h : bufInv st) :
    (flushKeep st).current_content = [] := by
  obtain ⟨c, cf, buf⟩ := st
  unfold flushKeep
  cases cf with
  | none =>
    dsimp only
    by_cases hb : buf = []
    · exact hb
    · obtain ⟨f, hf, _⟩ := h hb
      exact absurd hf (by simp)
  | some f =>
    dsimp only
    split
    · rfl
    · rename_i hg
      by_cases hb : buf = []
      · exact hb
      · obtain ⟨f', hf', hne'⟩ := h hb
        have : f = f' := by injection hf'
        exact absurd ⟨this ▸ hne', hb⟩ hg

theorem dictLookup_flushKeep (st : ParseState) (k : String)
    (hcf : st.current_file ≠ some k) :
    dictLookup (flushKeep st).changes k = dictLookup st.changes k := by
  obtain ⟨c, cf, buf⟩ := st
  unfold flushKeep
  cases cf with
  | none => rfl
  | some f =>
    dsimp only
    split
    · have hfk : f ≠ k := fun h => hcf (by rw [h])
      exact dictLookup_insert_ne c f k _ hfk
    · rfl

theorem processLine_plain_open (c : List (String × String)) (f : String)
    (buf : List String) (line : String) (hf : f ≠ "") (hl : plainLine line) :
    processLine ⟨c, some f, buf⟩ line = ⟨c, some f, buf ++ [line]⟩ := by
  have h1 : ¬(pyStartsWith line "```" = true ∧ 3 < pyLen line) := fun h => by
    simp [hl.1] at h
  have h2 : ¬(pyStartsWith line "File: " = true ∨ pyStartsWith line "filename: " = true) := by
    simp [hl.2.1, hl.2.2]
  have h3 : ¬(pyStartsWith line "```" = true ∧ pyLen line = 3) := fun h => by
    simp [hl.1] at h
  unfold processLine
  rw [if_neg h1, if_neg h2, if_neg h3]
  dsimp only
  rw [if_pos hf]

theorem processLine_plain_none (c : List (String × String)) (buf : List String)
    (line : String) (hl : plainLine line) :
    processLine ⟨c, none, buf⟩ line = ⟨c, none, buf⟩ := by
  have h1 : ¬(pyStartsWith line "```" = true ∧ 3 < pyLen line) := fun h => by
    simp [hl.1] at h
  have h2 : ¬(pyStartsWith line "File: " = true ∨ pyStartsWith line "filename: " = true) := by
    simp [hl.2.1, hl.2.2]
  have h3 : ¬(pyStartsWith line "```" = true ∧ pyLen line = 3) := fun h => by
    simp [hl.1] at h
  unfold processLine
  rw [if_neg h1, if_neg h2, if_neg h3]

theorem processLine_fence_open (c : List (String × String)) (k : String)
    (hk : pathLikeKey k) : processLine ⟨c, none, []⟩ ("```" ++ k) = ⟨c, some k, []⟩ := by
  unfold processLine
  rw [if_pos ⟨pyStartsWith_append "```" k, pyLen_fence_pos hk.1⟩]
  dsimp only
  rw [pyDrop_fence, pyStrip_noWs k hk.2.1]
  rw [if_pos hk.2.2, firstToken_noWs k hk.2.1]
  rfl

theorem processLine_close_commit (c : List (String × String)) (f : String)
    (buf : List String) (hf : f ≠ "") (hb : buf ≠ []) :
    processLine ⟨c, some f, buf⟩ "```" =
      ⟨dictInsert c f (pyJoinNl buf), none, []⟩ := by
  unfold processLine
  rw [if_neg (by decide), if_neg (by decide), if_pos (by decide)]
  dsimp only
  rw [if_pos ⟨hf, hb⟩]

theorem processLine_close_noop (c : List (String × String)) (f : String) :
    processLine ⟨c, some f, []⟩ "```" = ⟨c, some f, []⟩ := by
  unfold processLine
  rw [if_neg (by decide), if_neg (by decide), if_pos (by decide)]
  dsimp only
  rw [if_neg (fun h => h.2 rfl)]

theorem processLine_file_appy (st : ParseState) :
    processLine st "File: app.py" = { flushKeep st with current_file := some "app.py" } := by
  unfold processLine
  rw [if_neg (by decide), if_pos (by decide)]
  rfl

theorem bufInv_step (st : ParseState) (line : String) (h : bufInv st) :
    bufInv (processLine st line) := by
  by_cases h1 : pyStartsWith line "```" = true ∧ 3 < pyLen line
  · unfold processLine
    rw [if_pos h1]
    dsimp only
    split
    · intro hne
      exact absurd (flushKeep_cc_of_bufInv st h) hne
    · exact bufInv_flushKeep st h
  · by_cases h2 : pyStartsWith line "File: " = true ∨ pyStartsWith line "filename: " = true
    · unfold processLine
      rw [if_neg h1, if_pos h2]
      dsimp only
      intro hne
      exact absurd (flushKeep_cc_of_bufInv st h) hne
    · by_cases h3 : pyStartsWith line "```" = true ∧ pyLen line = 3
      · unfold processLine
        rw [if_neg h1, if_neg h2, if_pos h3]
        obtain ⟨c, cf, buf⟩ := st
        cases cf with
        | none => exact h
        | some f =>
          dsimp only
          split
          · intro hne
            exact absurd rfl hne
          · exact h
      · unfold processLine
        rw [if_neg h1, if_neg h2, if_neg h3]
        obtain ⟨c, cf, buf⟩ := st
        cases cf with
        | none => exact h
        | some f =>
          dsimp only
          split
          · rename_i hf
            intro _
            exact ⟨f, rfl, hf⟩
          · exact h

theorem avoid_step (k V : String) (st : ParseState) (line : String)
    (hl : opensFile line ≠ some k) (hcf : st.current_file ≠ some k)
    (hlk : dictLookup st.changes k = some V) :
    (processLine st line).current_file ≠ some k ∧
      dictLookup (processLine st line).changes k = some V := by
  by_cases h1 : pyStartsWith line "```" = true ∧ 3 < pyLen line
  · by_cases h2 : (pyStrip (pyDrop line 3)).data.contains '/' = true ∨
        (pyStrip (pyDrop line 3)).data.contains '.' = true
    · have ho : opensFile line = some (firstToken (pyStrip (pyDrop line 3))) := by
        unfold opensFile
        rw [if_pos h1]
        dsimp only
        rw [if_pos h2]
      have hp : processLine st line =
          { flushKeep st with current_file := some (firstToken (pyStrip (pyDrop line 3))) } := by
        unfold processLine
        rw [if_pos h1]
        dsimp only
        rw [if_pos h2]
      rw [hp]
      refine ⟨fun hc => hl ?_, dictLookup_flushKeep st k hcf ▸ hlk⟩
      rw [ho]
      exact hc
    · have hp : processLine st line = flushKeep st := by
        unfold processLine
        rw [if_pos h1]
        dsimp only
        rw [if_neg h2]
      rw [hp]
      refine ⟨?_, dictLookup_flushKeep st k hcf ▸ hlk⟩
      rw [flushKeep_current_file]
      exact hcf
  · by_cases h2 : pyStartsWith line "File: " = true ∨ pyStartsWith line "filename: " = true
    · obtain ⟨nm, hnm⟩ : ∃ nm : String, (if pyStartsWith line "File: " = true
          then pyStrip (pyDrop line 6) else pyStrip (pyDrop line 10)) = nm := ⟨_, rfl⟩
      have ho : opensFile line = some nm := by
        unfold opensFile
        rw [if_neg h1, if_pos h2, hnm]
      have hp : processLine st line = { flushKeep st with current_file := some nm } := by
        unfold processLine
        rw [if_neg h1, if_pos h2]
        dsimp only
        rw [hnm]
      rw [hp]
      refine ⟨fun hc => hl ?_, dictLookup_flushKeep st k hcf ▸ hlk⟩
      rw [ho]
      exact hc
    · by_cases h3 : pyStartsWith line "```" = true ∧ pyLen line = 3
      · unfold processLine
        rw [if_neg h1, if_neg h2, if_pos h3]
        obtain ⟨c, cf, buf⟩ := st
        cases cf with
        | none => exact ⟨hcf, hlk⟩
        | some f =>
          dsimp only
          split
          · refine ⟨by simp, ?_⟩
            have hfk : f ≠ k := fun he => hcf (by rw [he])
            exact (dictLookup_insert_ne c f k _ hfk).trans hlk
          · exact ⟨hcf, hlk⟩
      · unfold processLine
        rw [if_neg h1, if_neg h2, if_neg h3]
        obtain ⟨c, cf, buf⟩ := st
        cases cf with
        | none => exact ⟨hcf, hlk⟩
        | some f =>
          dsimp only
          split
          · exact ⟨hcf, hlk⟩
          · exact ⟨hcf, hlk⟩

/-! ## Fold-level lemmas for the extractor -/

theorem foldl_bufInv (ls : List String) (st : ParseState) (h : bufInv st) :
    bufInv (ls.foldl processLine st) := by
  induction ls generalizing st with
  | nil => exact h
  | cons l ls ih => exact ih _ (bufInv_step st l h)

theorem foldl_avoid (k V : String) (ls : List String)
    (hls : ∀ l ∈ ls, opensFile l ≠ some k) (st : ParseState)
    (hcf : st.current_file ≠ some k) (hlk : dictLookup st.changes k = some V) :
    (ls.foldl processLine st).current_file ≠ some k ∧
      dictLookup (ls.foldl processLine st).changes k = some V := by
  induction ls generalizing st with
  | nil => exact ⟨hcf, hlk⟩
  | cons l ls ih =>
    have step := avoid_step k V st l (hls l (List.mem_cons_self l ls)) hcf hlk
    exact ih (fun x hx => hls x (List.mem_cons_of_mem l hx)) _ step.1 step.2

theorem foldl_plain_lines (k : String) (hk : k ≠ "") (ls : List String)
    (hpl : ∀ l ∈ ls, plainLine l) (c : List (String × String)) (buf : List String) :
    ls.foldl processLine ⟨c, some k, buf⟩ = ⟨c, some k, buf ++ ls⟩ := by
  induction ls generalizing buf with
  | nil => rw [List.foldl_nil, List.append_nil]
  | cons l ls ih =>
    rw [List.foldl_cons, processLine_plain_open c k buf l hk (hpl l (List.mem_cons_self l ls))]
    rw [ih (fun x hx => hpl x (List.mem_cons_of_mem l hx)) (buf ++ [l])]
    rw [List.append_assoc]
    rfl

theorem block_fold (k v : String) (hk : pathLikeKey k) (hv : goodContent v)
    (c : List (String × String)) :
    (renderEntry k v).foldl processLine ⟨c, none, []⟩ = ⟨dictInsert c k v, none, []⟩ := by
  unfold renderEntry
  rw [List.foldl_cons, processLine_fence_open c k hk]
  rw [List.foldl_append]
  rw [foldl_plain_lines k hk.1 (pySplitLines v) hv c []]
  rw [List.nil_append, List.foldl_cons, List.foldl_nil]
  rw [processLine_close_commit c k (pySplitLines v) hk.1 (pySplitLines_ne_nil v)]
  rw [pyJoinNl_pySplitLines]

theorem renderAll_fold (m : List (String × String))
    (hm : ∀ kv ∈ m, pathLikeKey kv.1 ∧ goodContent kv.2) (c : List (String × String)) :
    (renderAll m).foldl processLine ⟨c, none, []⟩ =
      ⟨m.foldl (fun acc kv => dictInsert acc kv.1 kv.2) c, none, []⟩ := by
  induction m generalizing c with
  | nil => rfl
  | cons kv m ih =>
    obtain ⟨hk, hv⟩ := hm kv (List.mem_cons_self kv m)
    unfold renderAll
    rw [List.map_cons, List.flatten_cons, List.foldl_append]
    rw [block_fold kv.1 kv.2 hk hv c]
    rw [List.foldl_cons]
    exact ih (fun x hx => hm x (List.mem_cons_of_mem kv hx)) _

theorem foldDict_nodup (m : List (String × String)) (c : List (String × String))
    (hm : (m.map Prod.fst).Nodup) (hc : ∀ kv ∈ m, ∀ kv' ∈ c, kv'.1 ≠ kv.1) :
    m.foldl (fun acc kv => dictInsert acc kv.1 kv.2) c = c ++ m := by
  induction m generalizing c with
  | nil => rw [List.foldl_nil, List.append_nil]
  | cons kv m ih =>
    have hm' : kv.1 ∉ m.map Prod.fst ∧ (m.map Prod.fst).Nodup := by
      rw [List.map_cons] at hm
      exact List.nodup_cons.mp hm
    rw [List.foldl_cons]
    rw [dictInsert_eq_append c kv.1 kv.2
      (fun x hx => hc kv (List.mem_cons_self kv m) x hx)]
    rw [ih (c ++ [(kv.1, kv.2)]) hm'.2 ?_]
    · rw [List.append_assoc]
      rfl
    · intro x hx y hy
      rcases List.mem_append.mp hy with hy1 | hy2
      · exact hc x (List.mem_cons_of_mem kv hx) y hy1
      · have hy3 : y = (kv.1, kv.2) := by simpa using hy2
        rw [hy3]
        intro he
        apply hm'.1
        have hx1 : x.1 ∈ m.map Prod.fst := List.mem_map_of_mem Prod.fst hx
        rwa [← he] at hx1

theorem noWs_ne_nl {c : Char} (h : isPyWs c = false) : c ≠ '\n' := by
  intro he
  rw [he] at h
  exact absurd h (by decide)

theorem renderAll_no_nl (m : List (String × String)) (hm : ∀ kv ∈ m, pathLikeKey kv.1) :
    ∀ l ∈ renderAll m, ∀ c ∈ l.data, c ≠ '\n' := by
  intro l hl
  unfold renderAll at hl
  obtain ⟨block, hblock, hlb⟩ := List.mem_flatten.mp hl
  obtain ⟨kv, hkv, rfl⟩ := List.mem_map.mp hblock
  unfold renderEntry at hlb
  have hbt : ∀ c ∈ ("```" : String).data, c ≠ '\n' := by decide
  rcases List.mem_cons.mp hlb with h1 | h1
  · subst h1
    intro c hc
    rw [String.data_append] at hc
    rcases List.mem_append.mp hc with h2 | h2
    · exact hbt c h2
    · exact noWs_ne_nl ((hm kv hkv).2.1 c h2)
  · rcases List.mem_append.mp h1 with h2 | h2
    · unfold pySplitLines at h2
      obtain ⟨p, hp, rfl⟩ := List.mem_map.mp h2
      intro c hc
      exact mem_splitNl_no_nl _ p hp c hc
    · have : l = "```" := by simpa using h2
      subst this
      exact hbt

theorem renderAll_ne_nil (kv : String × String) (m : List (String × String)) :
    renderAll (kv :: m) ≠ [] := by
  unfold renderAll renderEntry
  simp

theorem pySplitLines_renderText (kv : String × String) (m : List (String × String))
    (hm : ∀ x ∈ kv :: m, pathLikeKey x.1) :
    pySplitLines (renderText (kv :: m)) = renderAll (kv :: m) := by
  unfold renderText
  exact pySplitLines_pyJoinNl _ (renderAll_ne_nil kv m) (renderAll_no_nl _ hm)

theorem finalFlush_none (c : List (String × String)) (cc : List String) :
    finalFlush ⟨c, none, cc⟩ = c := rfl

theorem dictLookup_finalFlush (st : ParseState) (k : String)
    (hcf : st.current_file ≠ some k) :
    dictLookup (finalFlush st) k = dictLookup st.changes k := by
  obtain ⟨c, cf, buf⟩ := st
  unfold finalFlush
  cases cf with
  | none => rfl
  | some f =>
    dsimp only
    split
    · have hfk : f ≠ k := fun h => hcf (by rw [h])
      exact dictLookup_insert_ne c f k _ hfk
    · rfl

theorem keys_flushKeep (st : ParseState) (h : ∀ kv ∈ st.changes, kv.1 ≠ "") :
    ∀ kv ∈ (flushKeep st).changes, kv.1 ≠ "" := by
  obtain ⟨c, cf, buf⟩ := st
  unfold flushKeep
  cases cf with
  | none => exact h
  | some f =>
    dsimp only
    split
    · rename_i hg
      intro kv hkv
      rcases mem_dictInsert _ _ _ _ hkv with h1 | h1
      · rw [h1]
        exact hg.1
      · exact h kv h1
    · exact h

theorem keys_step (st : ParseState) (line : String) (h : ∀ kv ∈ st.changes, kv.1 ≠ "") :
    ∀ kv ∈ (processLine st line).changes, kv.1 ≠ "" := by
  by_cases h1 : pyStartsWith line "```" = true ∧ 3 < pyLen line
  · unfold processLine
    rw [if_pos h1]
    dsimp only
    split
    · exact keys_flushKeep st h
    · exact keys_flushKeep st h
  · by_cases h2 : pyStartsWith line "File: " = true ∨ pyStartsWith line "filename: " = true
    · unfold processLine
      rw [if_neg h1, if_pos h2]
      dsimp only
      exact keys_flushKeep st h
    · by_cases h3 : pyStartsWith line "```" = true ∧ pyLen line = 3
      · unfold processLine
        rw [if_neg h1, if_neg h2, if_pos h3]
        obtain ⟨c, cf, buf⟩ := st
        cases cf with
        | none => exact h
        | some f =>
          dsimp only
          split
          · rename_i hg
            intro kv hkv
            rcases mem_dictInsert _ _ _ _ hkv with h4 | h4
            · rw [h4]
              exact hg.1
            · exact h kv h4
          · exact h
      · unfold processLine
        rw [if_neg h1, if_neg h2, if_neg h3]
        obtain ⟨c, cf, buf⟩ := st
        cases cf with
        | none => exact h
        | some f =>
          dsimp only
          split
          · exact h
          · exact h

theorem keys_foldl (ls : List String) (st : ParseState)
    (h : ∀ kv ∈ st.changes, kv.1 ≠ "") :
    ∀ kv ∈ (ls.foldl processLine st).changes, kv.1 ≠ "" := by
  induction ls generalizing st with
  | nil => exact h
  | cons l ls ih => exact ih _ (keys_step st l h)

theorem keys_finalFlush (st : ParseState) (h : ∀ kv ∈ st.changes, kv.1 ≠ "") :
    ∀ kv ∈ finalFlush st, kv.1 ≠ "" := by
  obtain ⟨c, cf, buf⟩ := st
  unfold finalFlush
  cases cf with
  | none => exact h
  | some f =>
    dsimp only
    split
    · rename_i hg
      intro kv hkv
      rcases mem_dictInsert _ _ _ _ hkv with h1 | h1
      · rw [h1]
        exact hg.1
      · exact h kv h1
    · exact h

theorem foldl_plain_none (ls : List String) (hpl : ∀ l ∈ ls, plainLine l)
    (c : List (String × String)) (buf : List String) :
    ls.foldl processLine ⟨c, none, buf⟩ = ⟨c, none, buf⟩ := by
  induction ls with
  | nil => rfl
  | cons l ls ih =>
    rw [List.foldl_cons, processLine_plain_none c buf l (hpl l (List.mem_cons_self l ls))]
    exact ih fun x hx => hpl x (List.mem_cons_of_mem l hx)

theorem block_appy (st : ParseState) (h : bufInv st) :
    ["File: app.py", "print(1)", "print(2)", "```"].foldl processLine st =
      ⟨dictInsert (flushKeep st).changes "app.py" "print(1)\nprint(2)", none, []⟩ := by
  rcases hfk : flushKeep st with ⟨ch, cf2, cc⟩
  have hcc : cc = [] := by
    have h1 := flushKeep_cc_of_bufInv st h
    rw [hfk] at h1
    exact h1
  subst hcc
  rw [List.foldl_cons, processLine_file_appy st, hfk]
  show ["print(1)", "print(2)", "```"].foldl processLine ⟨ch, some "app.py", []⟩ = _
  rw [List.foldl_cons, processLine_plain_open ch "app.py" [] "print(1)" (by decide) (by decide)]
  show ["print(2)", "```"].foldl processLine ⟨ch, some "app.py", ["print(1)"]⟩ = _
  rw [List.foldl_cons,
    processLine_plain_open ch "app.py" ["print(1)"] "print(2)" (by decide) (by decide)]
  show ["```"].foldl processLine ⟨ch, some "app.py", ["print(1)", "print(2)"]⟩ = _
  rw [List.foldl_cons,
    processLine_close_commit ch "app.py" ["print(1)", "print(2)"] (by decide) (by decide)]
  rfl

/-! ## Claim C1 -/

/-- C1 is false as stated: it quantifies over every input text containing the
four-line block, but a later `File: app.py` label re-opens the path and the
last commit wins.  On the concrete input whose lines are the block followed
by `File: app.py` and `changed`, the extractor maps `app.py` to `"changed"`,
not to `"print(1)\nprint(2)"`. -/
theorem c1_counterexample :
    dictLookup (parse_code_changes
        "File: app.py\nprint(1)\nprint(2)\n```\nFile: app.py\nchanged") "app.py" =
      some "changed" ∧
    ¬ dictLookup (parse_code_changes
        "File: app.py\nprint(1)\nprint(2)\n```\nFile: app.py\nchanged") "app.py" =
      some "print(1)\nprint(2)" :=
  ⟨by decide, by decide⟩

/-- C1 (amended): for every input text whose line decomposition contains the
block `File: app.py`, `print(1)`, `print(2)`, bare fence — with anything
before it, and with no later line re-opening `app.py` as a file — the
extractor's output maps `app.py` to `"print(1)\nprint(2)"`. -/
theorem c1_amended (s : String) (pre post : List String)
    (hs : pySplitLines s =
      pre ++ "File: app.py" :: "print(1)" :: "print(2)" :: "```" :: post)
    (hpost : ∀ line ∈ post, opensFile line ≠ some "app.py") :
    dictLookup (parse_code_changes s) "app.py" = some "print(1)\nprint(2)" := by
  unfold parse_code_changes parseLines
  rw [hs]
  rw [show ("File: app.py" :: "print(1)" :: "print(2)" :: "```" :: post) =
      ["File: app.py", "print(1)", "print(2)", "```"] ++ post from rfl]
  rw [List.foldl_append, List.foldl_append]
  have hinv : bufInv (pre.foldl processLine ⟨[], none, []⟩) :=
    foldl_bufInv pre _ (fun hne => absurd rfl hne)
  rw [block_appy _ hinv]
  obtain ⟨hcf, hlk⟩ := foldl_avoid "app.py" "print(1)\nprint(2)" post hpost
    ⟨dictInsert (flushKeep (pre.foldl processLine ⟨[], none, []⟩)).changes
        "app.py" "print(1)\nprint(2)", none, []⟩
    (by simp) (dictLookup_insert_self _ _ _)
  rw [dictLookup_finalFlush _ _ hcf]
  exact hlk

/-- C1 witness: the amended theorem applied at a concrete surrounding text. -/
theorem c1_amended_witness :
    dictLookup (parse_code_changes "hello\nFile: app.py\nprint(1)\nprint(2)\n```\ndone")
        "app.py" = some "print(1)\nprint(2)" :=
  c1_amended "hello\nFile: app.py\nprint(1)\nprint(2)\n```\ndone"
    ["hello"] ["done"] (by decide) (by decide)

/-! ## Claim C2 -/

/-- C2 is false as stated: the claim allows arbitrary contents, but a content
whose only line is itself a bare fence is swallowed — the block for
`("a.py", "```")` parses to the empty mapping, because the inner bare fence
meets an empty buffer (no commit, file stays open) and the outer one then
also finds an empty buffer. -/
theorem c2_counterexample :
    pathLikeKey "a.py" ∧
    parse_code_changes (renderText [("a.py", "```")]) = [] :=
  ⟨by decide, by decide⟩

/-- C2 (amended): the round-trip holds for every mapping with distinct,
non-empty, path-like keys whose contents contain no line that itself begins
a fence or a `File:`/`filename:` label. -/
theorem c2_roundtrip (m : List (String × String))
    (hnodup : (m.map Prod.fst).Nodup)
    (hm : ∀ kv ∈ m, pathLikeKey kv.1 ∧ goodContent kv.2) :
    parse_code_changes (renderText m) = m := by
  cases m with
  | nil => decide
  | cons kv m' =>
    unfold parse_code_changes
    rw [pySplitLines_renderText kv m' (fun x hx => (hm x hx).1)]
    unfold parseLines
    rw [renderAll_fold _ hm []]
    rw [finalFlush_none]
    rw [foldDict_nodup _ [] hnodup (fun kv2 _ y hy => absurd hy (List.not_mem_nil y))]
    rw [List.nil_append]

/-- C2 witness: the amended round-trip at a concrete two-file mapping with a
multi-line content. -/
theorem c2_roundtrip_witness :
    parse_code_changes (renderText [("a.py", "x = 1"), ("b/c.js", "y\nz")]) =
      [("a.py", "x = 1"), ("b/c.js", "y\nz")] :=
  c2_roundtrip [("a.py", "x = 1"), ("b/c.js", "y\nz")] (by decide) (by decide)

/-! ## Claim C3 -/

/-- C3: the classifier tests the `analyze` keyword set first, so any message
whose lower-cased text contains one of its keywords classifies as `analyze`
regardless of what else it contains; and the three spec examples hold. -/
theorem c3_classifier :
    (∀ m : String, analyzeKeywords.any (fun k => containsSubstr (pyLower m) k) = true →
        identify_task_type m = some "analyze") ∧
    identify_task_type "please analyze this function" = some "analyze" ∧
    identify_task_type "write a new parser" = some "generate" ∧
    identify_task_type "hello" = none := by
  refine ⟨fun m hm => ?_, by decide, by decide, by decide⟩
  unfold identify_task_type
  dsimp only
  rw [if_pos hm]

/-- C3 witness: a message containing both `check` and the review phrase
`check pr` still classifies as `analyze` (first match wins). -/
theorem c3_classifier_witness :
    identify_task_type "check pr #4" = some "analyze" :=
  c3_classifier.1 "check pr #4" (by decide)

/-! ## Claim C4 -/

/-- C4 is false as stated for limit 0: on a one-message history,
`messages[-0:]` is the whole list, so the call returns 1 message while
`min 0 1 = 0`. -/
theorem c4_counterexample :
    oneMsgConv.messages ≠ [] ∧
    (get_recent_messages (some oneMsgConv) 0).length = 1 ∧
    ¬ (get_recent_messages (some oneMsgConv) 0).length =
        min 0 oneMsgConv.messages.length :=
  ⟨by decide, by decide, by decide⟩

/-- C4 (amended): for every limit `N ≥ 1` and non-empty history,
`recent_messages` returns exactly `min N len` messages, and they are the
final segment of the history in original order; with no active conversation
it returns the empty list.  (The retrieval is a pure function of the store
in this embedding, so it cannot modify it.) -/
theorem c4_amended (c : Conversation) (N : Nat) (hN : 1 ≤ N) (_hne : c.messages ≠ []) :
    (get_recent_messages (some c) N).length = min N c.messages.length ∧
    c.messages.take (c.messages.length - N) ++ get_recent_messages (some c) N =
      c.messages ∧
    get_recent_messages none N = [] := by
  have hs : get_recent_messages (some c) N = c.messages.drop (c.messages.length - N) := by
    show pySliceFrom c.messages (-(N : Int)) = _
    unfold pySliceFrom
    rw [if_pos (by omega : -(N : Int) < 0)]
    have harg : ((c.messages.length : Int) + -(N : Int)).toNat = c.messages.length - N := by
      omega
    rw [harg]
  refine ⟨?_, ?_, rfl⟩
  · rw [hs, List.length_drop]
    omega
  · rw [hs]
    exact List.take_append_drop _ _

/-- C4 witness: the amended theorem at a one-message history and limit 2. -/
theorem c4_amended_witness :
    (get_recent_messages (some oneMsgConv) 2).length = min 2 oneMsgConv.messages.length ∧
    oneMsgConv.messages.take (oneMsgConv.messages.length - 2) ++
      get_recent_messages (some oneMsgConv) 2 = oneMsgConv.messages ∧
    get_recent_messages none 2 = [] :=
  c4_amended oneMsgConv 2 (by decide) (by decide)

/-! ## Claim C5 -/

/-- C5 is false as stated for an empty buffer: the bare-fence branch only
commits and clears when the buffer is non-empty, so with an open file and an
empty buffer the fence line is a no-op, the file stays open, and the line
after the fence is still appended to it. -/
theorem c5_counterexample :
    (processLine ⟨[], some "a.py", []⟩ "```").current_file = some "a.py" ∧
    parse_code_changes "File: a.py\n```\nafter" = [("a.py", "after")] :=
  ⟨by decide, by decide⟩

/-- C5 (amended): with an open file and a NON-empty buffer, a bare fence
commits the buffer under `current_file` and clears `current_file`; with an
empty buffer the line is a no-op and the file stays open. -/
theorem c5_amended (c : List (String × String)) (f : String) (buf : List String)
    (hf : f ≠ "") (hb : buf ≠ []) :
    processLine ⟨c, some f, buf⟩ "```" = ⟨dictInsert c f (pyJoinNl buf), none, []⟩ ∧
    processLine ⟨c, some f, []⟩ "```" = ⟨c, some f, []⟩ :=
  ⟨processLine_close_commit c f buf hf hb, processLine_close_noop c f⟩

/-- C5 witness: the amended theorem at a concrete open file. -/
theorem c5_amended_witness :
    processLine ⟨[], some "a.py", ["x"]⟩ "```" =
      ⟨dictInsert [] "a.py" (pyJoinNl ["x"]), none, []⟩ ∧
    processLine ⟨[], some "a.py", []⟩ "```" = ⟨[], some "a.py", []⟩ :=
  c5_amended [] "a.py" ["x"] (by decide) (by decide)

/-! ## Claim C6 -/

/-- C6: the code contradicts the claim.  `process_task` raises `ValueError`
(not `NotImplementedError`) for an unknown task type and then catches it in
its own blanket handler, returning an ordinary `CodeResponse`; the service
boundary therefore answers HTTP 200 with that response, and its
`NotImplementedError`-to-501 branch is unreachable.  Evaluated here at the
failing input `task_type = "deploy"`. -/
theorem c6_unknown_task_kind :
    api_process_task (fun _ _ => Except.error (PyError.other "backend unavailable"))
        "demo" ⟨"deploy", "please deploy this service", ⟨[], none, none, none⟩, none⟩ =
      ApiResult.ok ⟨"Error processing task: Unknown task type: deploy",
        some "An error occurred", none, none⟩ := by
  decide

/-! ## Claim C7 -/

/-- C7 is false as stated: an exception raised inside the file-operation
branch is caught by that branch's inner handler, not at the top level — no
assistant error message is recorded in the history and the returned text is
the assistant reply plus an appended note, not the top-level error text.
Concrete run: reply "sure", message "file", file scan raises "boom"; the
final history is exactly the user message and the "sure" reply. -/
theorem c7_counterexample :
    ((chat (Except.ok "sure") (Except.error "boom")
        (fun _ _ => Except.error (PyError.other "unused"))
        ⟨[], none, none, none⟩ none "demo" "file" "cli" none ⟨0, [], []⟩).1.map
      (fun conv => conv.messages.map (fun msg => (msg.role, msg.content)))) =
      some [("user", "file"), ("assistant", "sure")] ∧
    (chat (Except.ok "sure") (Except.error "boom")
        (fun _ _ => Except.error (PyError.other "unused"))
        ⟨[], none, none, none⟩ none "demo" "file" "cli" none ⟨0, [], []⟩).2.2 =
      "sure\n\nI encountered an error while checking the files: boom" :=
  ⟨by decide, by decide⟩

/-- C7 (amended): every exception that reaches the top-level handler — in
particular any failure of the conversational completion call — is caught
there: the turn returns the technical-issue text instead of raising, appends
exactly one assistant error message after the recorded user message, and the
Progress Reporter's last notice is a failed result.  (Exceptions inside the
file-operation branch are handled by that branch's own handler instead.) -/
theorem c7_amended (e message source project_name : String)
    (fileOp : Except String String) (run : String → CodingTask → Except PyError CodeResponse)
    (ctx : CodeContext) (wp : Option String) (mem : Option Conversation) (lg : LoggerState) :
    (chat (Except.error e) fileOp run ctx wp project_name message source mem lg).2.2 =
      "I encountered a technical issue: " ++ e ++ ". I\x27ll adjust my approach to resolve this." ∧
    ((chat (Except.error e) fileOp run ctx wp project_name message source mem lg).1.map
        Conversation.messages) =
      some ((match mem with | none => [] | some c => c.messages) ++
        [⟨"user", message, [("source", source)]⟩,
         ⟨"assistant", "I encountered a technical issue: " ++ e ++
            ". I\x27ll adjust my approach to resolve this.", [("source", source)]⟩]) ∧
    (chat (Except.error e) fileOp run ctx wp project_name message source mem lg).2.1.log.getLast? =
      some (LogEvent.result false e) := by
  cases mem with
  | none =>
    refine ⟨rfl, ?_, ?_⟩
    · simp [chat, add_message, start_conversation]
    · simp [chat, add_message, start_conversation, log_step, log_result, logReset,
        List.getLast?_concat]
  | some c =>
    refine ⟨rfl, ?_, ?_⟩
    · simp [chat, add_message]
    · simp [chat, add_message, log_step, log_result, logReset, List.getLast?_concat]

/-- C7 witness: the amended theorem at a concrete failing completion call. -/
theorem c7_amended_witness :
    (chat (Except.error "boom") (Except.ok "files") (fun _ _ => Except.error (PyError.other "u"))
        ⟨[], none, none, none⟩ none "demo" "hello there" "cli" none ⟨0, [], []⟩).2.2 =
      "I encountered a technical issue: " ++ "boom" ++
        ". I\x27ll adjust my approach to resolve this." :=
  (c7_amended "boom" "hello there" "cli" "demo" (Except.ok "files")
    (fun _ _ => Except.error (PyError.other "u"))
    ⟨[], none, none, none⟩ none none ⟨0, [], []⟩).1

/-! ## Claim C8 -/

/-- C8: extraction invariants — every key of the output mapping is
non-empty; re-opening the same path commits the later content over the
earlier one; and text none of whose lines begins a fence or a
`File:`/`filename:` label extracts to the empty mapping.  (All three parts
are about the total function `parse_code_changes`, which cannot fail.) -/
theorem c8_invariants :
    (∀ s k v, (k, v) ∈ parse_code_changes s → k ≠ "") ∧
    (∀ k v w, pathLikeKey k → goodContent v → goodContent w →
        parse_code_changes (renderText [(k, v), (k, w)]) = [(k, w)]) ∧
    (∀ s, (∀ line ∈ pySplitLines s, plainLine line) → parse_code_changes s = []) := by
  refine ⟨?_, ?_, ?_⟩
  · intro s k v hmem
    exact keys_finalFlush _
      (keys_foldl (pySplitLines s) ⟨[], none, []⟩
        (fun kv hkv => absurd hkv (List.not_mem_nil kv))) (k, v) hmem
  · intro k v w hk hv hw
    unfold parse_code_changes
    rw [pySplitLines_renderText (k, v) [(k, w)] ?_]
    · unfold parseLines
      rw [renderAll_fold [(k, v), (k, w)] ?_ []]
      · rw [finalFlush_none]
        show dictInsert (dictInsert [] k v) k w = [(k, w)]
        simp [dictInsert]
      · intro x hx
        rcases List.mem_cons.mp hx with h1 | h1
        · rw [h1]
          exact ⟨hk, hv⟩
        · have hx2 : x = (k, w) := by simpa using h1
          rw [hx2]
          exact ⟨hk, hw⟩
    · intro x hx
      rcases List.mem_cons.mp hx with h1 | h1
      · rw [h1]
        exact hk
      · have hx2 : x = (k, w) := by simpa using h1
        rw [hx2]
        exact hk
  · intro s hpl
    unfold parse_code_changes parseLines
    rw [foldl_plain_none (pySplitLines s) hpl [] []]
    rfl

/-- C8 witness: the three invariants at concrete inputs. -/
theorem c8_invariants_witness :
    ("a.py" : String) ≠ "" ∧
    parse_code_changes (renderText [("a.py", "v1"), ("a.py", "v2")]) = [("a.py", "v2")] ∧
    parse_code_changes "no markers here" = [] :=
  ⟨c8_invariants.1 "File: a.py\nx" "a.py" "x" (by decide),
   c8_invariants.2.1 "a.py" "v1" "v2" (by decide) (by decide) (by decide),
   c8_invariants.2.2 "no markers here" (by decide)⟩

/-! ## Claim C9 -/

/-- C9: in the discrete-time embedding of the polling loop (ticks of the
loop's 0.1-second sleep, completion at tick 50 i.e. 5 seconds, minimum
interval 20 ticks i.e. 2 seconds), heartbeats are emitted exactly at ticks
20 and 40 — between 2 and 3 notices, all strictly before the completion
tick — and the loop observes completion and stops at tick 50 itself, i.e.
within one polling tick of the awaited result. -/
theorem c9_heartbeat :
    heartbeats 50 = [20, 40] ∧
    2 ≤ (heartbeats 50).length ∧
    (heartbeats 50).length ≤ 3 ∧
    (heartbeats 50).all (fun t => decide (t < 50)) = true ∧
    heartbeatStopTick 50 = 50 := by
  decide

/-! ## Claim C10 -/

/-- C10: with limit 0 the negated-index slice `messages[-0:]` is
`messages[0:]`, the entire history, not zero messages. -/
theorem c10_limit_zero (c : Conversation) (_hne : c.messages ≠ []) :
    get_recent_messages (some c) 0 = c.messages := by
  show pySliceFrom c.messages (-((0 : Nat) : Int)) = c.messages
  unfold pySliceFrom
  rw [if_neg (by omega : ¬(-((0 : Nat) : Int) < 0))]
  have h0 : (-((0 : Nat) : Int)).toNat = 0 := by omega
  rw [h0, List.drop_zero]

/-- C10 witness: the theorem at the one-message conversation. -/
theorem c10_limit_zero_witness :
    get_recent_messages (some oneMsgConv) 0 = oneMsgConv.messages :=
  c10_limit_zero oneMsgConv (by decide)
